import Mathlib

/-!
Verification development for the focus-todo application core modules:
the Pomodoro timer state machine (`src/js/timer.js`), the task/project
store (`src/js/tasks.js`, `TaskManager`), the progress tracker
(`progress.js`, `ProgressTracker`) and the persistence layer
(`src/js/storage.js`, `StorageManager`).

The JavaScript modules are shallowly embedded as pure Lean functions.
Mutable module state becomes explicit state records; the wall clock and
the random generator, which the code reads through `Date.now()`,
`new Date()` and `Math.random()`, become explicit parameters; JS numbers
that only ever hold integers become `Nat`, and the rational arithmetic of
`getProgressPercentage` is modelled with exact `ℚ` arithmetic
(the idealisation of JS float arithmetic on these small integer ratios).
-/

/-! ## Timer module (src/js/timer.js) -/

namespace Timer

/-- The `DEFAULT_SETTINGS` object of timer.js: durations in seconds and the
long-break interval. -/
structure TimerSettings where
  pomodoro : Nat
  shortBreak : Nat
  longBreak : Nat
  longBreakInterval : Nat
deriving DecidableEq

/-- `DEFAULT_SETTINGS` from timer.js: 25 min focus, 5 min short break,
15 min long break, long break every 4 pomodoros. -/
def DEFAULT_SETTINGS : TimerSettings :=
  { pomodoro := 25 * 60, shortBreak := 5 * 60, longBreak := 15 * 60,
    longBreakInterval := 4 }

/-- The `currentMode` field: one of the strings `pomodoro`, `shortBreak`,
`longBreak`. -/
inductive TimerMode where
  | pomodoro
  | shortBreak
  | longBreak
deriving DecidableEq

/-- The indexing `DEFAULT_SETTINGS[mode]` used by `switchTimerMode` and
`resetTimer`. -/
def TimerSettings.duration (st : TimerSettings) : TimerMode → Nat
  | TimerMode.pomodoro => st.pomodoro
  | TimerMode.shortBreak => st.shortBreak
  | TimerMode.longBreak => st.longBreak

/-- The `pomodoroQuantity` sub-object of a task. -/
structure PomQuantity where
  completed : Nat
  total : Nat
deriving DecidableEq

/-- The slice of a task object that timer.js touches: its id and its
`pomodoroQuantity` (which may be absent, hence `Option`). -/
structure TimerTask where
  id : Nat
  pomodoroQuantity : Option PomQuantity
deriving DecidableEq

/-- The module state of timer.js: the `timerState` object together with the
module-level `tasks` array shared via `setTasks`. -/
structure TimerState where
  currentMode : TimerMode
  timeRemaining : Nat
  isRunning : Bool
  currentTask : Option Nat
  completedPomodoros : Nat
  tasks : List TimerTask
deriving DecidableEq

/-- The initial `timerState` object of timer.js (mode `pomodoro`, full focus
duration, not running, no current task, zero completed pomodoros), with an
empty shared `tasks` array. -/
def initialTimerState : TimerState :=
  { currentMode := TimerMode.pomodoro
    timeRemaining := DEFAULT_SETTINGS.pomodoro
    isRunning := false
    currentTask := none
    completedPomodoros := 0
    tasks := [] }

/-- `startTimer` (state part): sets `isRunning` and starts the interval. -/
def startTimer (s : TimerState) : TimerState :=
  { s with isRunning := true }

/-- `pauseTimer` (state part): clears `isRunning` and the interval. -/
def pauseTimer (s : TimerState) : TimerState :=
  { s with isRunning := false }

/-- The task update inside `completeTimer`: `tasks.find(t => t.id == currentTask)`
followed by `task.pomodoroQuantity.completed = (task.pomodoroQuantity.completed || 0) + 1`
when the found task has a `pomodoroQuantity`; only the first match is mutated. -/
def bumpTaskPomodoro (tid : Nat) : List TimerTask → List TimerTask
  | [] => []
  | t :: ts =>
    if t.id = tid then
      (match t.pomodoroQuantity with
       | some q => { t with pomodoroQuantity := some { q with completed := q.completed + 1 } }
       | none => t) :: ts
    else
      t :: bumpTaskPomodoro tid ts

/-- `switchTimerMode(mode)`: sets `currentMode` and resets `timeRemaining` to
the configured duration of the new mode. -/
def switchTimerMode (settings : TimerSettings) (mode : TimerMode) (s : TimerState) : TimerState :=
  { s with currentMode := mode, timeRemaining := settings.duration mode }

/-- `completeTimer()`: pauses, and if the finished interval was a focus
session, increments `completedPomodoros`, updates the current task's pomodoro
count, then switches to `longBreak` when `completedPomodoros % longBreakInterval === 0`
and to `shortBreak` otherwise; after a break it switches back to `pomodoro`. -/
def completeTimer (settings : TimerSettings) (s : TimerState) : TimerState :=
  let s1 := pauseTimer s
  if s1.currentMode = TimerMode.pomodoro then
    let s2 := { s1 with completedPomodoros := s1.completedPomodoros + 1 }
    let s3 :=
      match s2.currentTask with
      | some tid => { s2 with tasks := bumpTaskPomodoro tid s2.tasks }
      | none => s2
    if s3.completedPomodoros % settings.longBreakInterval = 0 then
      switchTimerMode settings TimerMode.longBreak s3
    else
      switchTimerMode settings TimerMode.shortBreak s3
  else
    switchTimerMode settings TimerMode.pomodoro s1

/-- `tickTimer()`: one one-second tick; decrements `timeRemaining` while it is
positive and calls `completeTimer` once it is zero. -/
def tickTimer (settings : TimerSettings) (s : TimerState) : TimerState :=
  if s.timeRemaining > 0 then
    { s with timeRemaining := s.timeRemaining - 1 }
  else
    completeTimer settings s

/-- `n` consecutive timer ticks. -/
def tickN (settings : TimerSettings) : Nat → TimerState → TimerState
  | 0, s => s
  | n + 1, s => tickN settings n (tickTimer settings s)

/-- A concrete timer state about to finish its fourth focus session. -/
def wTimerState : TimerState :=
  { currentMode := TimerMode.pomodoro
    timeRemaining := 0
    isRunning := true
    currentTask := none
    completedPomodoros := 3
    tasks := [] }

end Timer

/-! ## Task store (src/js/tasks.js, class TaskManager) -/

namespace TaskMgr

/-- The `Priority` enum of tasks.js. -/
def Priority.HIGHEST : Nat := 1

/-- Priority level HIGH. -/
def Priority.HIGH : Nat := 2

/-- Priority level MEDIUM (the `createTask` default). -/
def Priority.MEDIUM : Nat := 3

/-- Priority level LOW. -/
def Priority.LOW : Nat := 4

/-- A subtask object: id, name, completed flag. -/
structure Subtask where
  id : String
  name : String
  completed : Bool
deriving DecidableEq

/-- A task object as built by `TaskManager.createTask`. -/
structure Task where
  id : String
  name : String
  completed : Bool
  priority : Nat
  projectId : Option String
  dueDate : Option String
  estimatedPomodoros : Nat
  completedPomodoros : Nat
  notes : String
  subtasks : List Subtask
  createdAt : String
  updatedAt : String
deriving DecidableEq

/-- A project object: id, name, color. -/
structure Project where
  id : String
  name : String
  color : String
deriving DecidableEq

/-- The `TaskManager` instance state: its `tasks` and `projects` arrays. -/
structure TaskManager where
  tasks : List Task
  projects : List Project
deriving DecidableEq

/-- The change callbacks a `TaskManager` invokes
(`_notifyTasksChanged` / `_notifyProjectsChanged`). -/
inductive ChangeEvent where
  | projectsChanged
  | tasksChanged
deriving DecidableEq

/-- Digit characters of base 36 (`0`-`9` then `a`-`z`), as used by
`Number.prototype.toString(36)`. -/
def base36Char (d : Nat) : Char :=
  if d < 10 then Char.ofNat (48 + d) else Char.ofNat (87 + d)

/-- Big-endian base-36 digit list of `n`, with enough fuel. -/
def toBase36Aux : Nat → Nat → List Char
  | 0, _ => []
  | fuel + 1, n =>
    if n = 0 then [] else toBase36Aux fuel (n / 36) ++ [base36Char (n % 36)]

/-- `n.toString(36)` for a natural number `n`. -/
def toBase36 (n : Nat) : String :=
  if n = 0 then ("0") else String.mk (toBase36Aux (n + 1) n)

/-- `TaskManager._generateId`: `Date.now().toString(36) + Math.random().toString(36).substr(2, 5)`.
The wall clock and the random draw are explicit parameters: `now` is the
millisecond timestamp and `rand` encodes the five base-36 digits taken from
the random number's fractional expansion. The generator is deterministic in
`(now, rand)` and performs no collision check against existing ids. -/
def generateId (now rand : Nat) : String :=
  toBase36 now ++ toBase36 (rand % 36 ^ 5)

/-- JS `x || y` for an optional number `x`: `undefined` and `0` are falsy. -/
def jsOrNat (x : Option Nat) (y : Nat) : Nat :=
  match x with
  | some n => if n = 0 then y else n
  | none => y

/-- JS `x || y` for an optional string where the default is `null`:
`undefined` and the empty string are falsy. -/
def jsOrStrNull (x : Option String) : Option String :=
  match x with
  | some s => if s = "" then none else some s
  | none => none

/-- JS `x || y` for an optional string with a string default. -/
def jsOrStr (x : Option String) (y : String) : String :=
  match x with
  | some s => if s = "" then y else s
  | none => y

/-- The `taskData` argument of `createTask`: the caller-supplied fields,
each possibly `undefined`. -/
structure TaskData where
  name : String
  priority : Option Nat
  projectId : Option String
  dueDate : Option String
  estimatedPomodoros : Option Nat
  notes : Option String
  subtasks : Option (List Subtask)
deriving DecidableEq

/-- `TaskManager.createTask(taskData)`: builds the new task with a generated
id, `completed: false` and the documented defaults, pushes it at the end of
`this.tasks` and notifies. `now`/`rand` feed `_generateId`, `nowIso` is
`new Date().toISOString()`. -/
def createTask (now rand : Nat) (nowIso : String) (td : TaskData) (m : TaskManager) :
    Task × TaskManager × List ChangeEvent :=
  let newTask : Task :=
    { id := generateId now rand
      name := td.name
      completed := false
      priority := jsOrNat td.priority Priority.MEDIUM
      projectId := jsOrStrNull td.projectId
      dueDate := jsOrStrNull td.dueDate
      estimatedPomodoros := jsOrNat td.estimatedPomodoros 1
      completedPomodoros := 0
      notes := jsOrStr td.notes ("")
      subtasks := td.subtasks.getD []
      createdAt := nowIso
      updatedAt := nowIso }
  (newTask, { m with tasks := m.tasks ++ [newTask] }, [ChangeEvent.tasksChanged])

/-- The per-task mutation inside `deleteProject`:
`if (task.projectId === projectId) task.projectId = null`. -/
def clearProjectId (pid : String) (t : Task) : Task :=
  if t.projectId = some pid then { t with projectId := none } else t

/-- `TaskManager.deleteProject(projectId)`: filters the project out; when
something was removed, clears `projectId` on every task that pointed to it
and fires the projects-changed and tasks-changed callbacks, returning
`true`; otherwise returns `false` with no notification. -/
def deleteProject (pid : String) (m : TaskManager) :
    TaskManager × Bool × List ChangeEvent :=
  let remaining := m.projects.filter (fun p => p.id ≠ pid)
  if remaining.length ≠ m.projects.length then
    ({ m with projects := remaining, tasks := m.tasks.map (clearProjectId pid) },
     true, [ChangeEvent.projectsChanged, ChangeEvent.tasksChanged])
  else
    ({ m with projects := remaining }, false, [])

/-- The `taskMap` object built by `reorderTasks`: keyed by id, with later
array entries overwriting earlier ones (hence the lookup on the reversed
list). -/
def taskMapFind (ts : List Task) (i : String) : Option Task :=
  ts.reverse.find? (fun t => t.id = i)

/-- `TaskManager.reorderTasks(taskIds)` on the task list: the existing tasks
named by `taskIds`, in that order, followed by every task whose id is not in
`taskIds`, in their prior relative order. -/
def reorderTasks (taskIds : List String) (ts : List Task) : List Task :=
  (taskIds.filterMap (taskMapFind ts)) ++ ts.filter (fun t => !(taskIds.contains t.id))

/-- `TaskManager.reorderTasks` at the manager level, with its
tasks-changed notification. -/
def managerReorderTasks (taskIds : List String) (m : TaskManager) :
    TaskManager × List ChangeEvent :=
  ({ m with tasks := reorderTasks taskIds m.tasks }, [ChangeEvent.tasksChanged])

/-- A `taskData` argument that supplies only a name, leaving every other
field `undefined`. -/
def defaultTaskData (name : String) : TaskData :=
  { name := name
    priority := none
    projectId := none
    dueDate := none
    estimatedPomodoros := none
    notes := none
    subtasks := none }

/-- A concrete task with id `a` in project `p1`. -/
def wTaskA : Task :=
  { id := "a", name := "task a", completed := false, priority := 3,
    projectId := some ("p1"), dueDate := none, estimatedPomodoros := 1,
    completedPomodoros := 0, notes := "", subtasks := [],
    createdAt := "", updatedAt := "" }

/-- A concrete task with id `b` in project `p1`. -/
def wTaskB : Task :=
  { id := "b", name := "task b", completed := false, priority := 3,
    projectId := some ("p1"), dueDate := none, estimatedPomodoros := 1,
    completedPomodoros := 0, notes := "", subtasks := [],
    createdAt := "", updatedAt := "" }

/-- A concrete task with id `c` that belongs to a different project (`p2`),
i.e. is outside the scope of a `p1` reorder. -/
def wTaskOutScope : Task :=
  { id := "c", name := "task c", completed := false, priority := 3,
    projectId := some ("p2"), dueDate := none, estimatedPomodoros := 1,
    completedPomodoros := 0, notes := "", subtasks := [],
    createdAt := "", updatedAt := "" }

/-- A concrete task whose id cannot collide with a generated one. -/
def wTaskZ : Task :=
  { id := "zzz", name := "task z", completed := false, priority := 3,
    projectId := none, dueDate := none, estimatedPomodoros := 1,
    completedPomodoros := 0, notes := "", subtasks := [],
    createdAt := "", updatedAt := "" }

/-- A concrete project. -/
def wProject : Project :=
  { id := "p1", name := "Project one", color := "#4a90e2" }

/-- An empty manager. -/
def wMgr0 : TaskManager := { tasks := [], projects := [] }

/-- The manager after one `createTask` call at timestamp 0 with random
draw 0. -/
def wMgr1 : TaskManager :=
  (createTask 0 0 ("2020-01-01T00:00:00.000Z") (defaultTaskData ("first")) wMgr0).2.1

/-- A manager holding one task with id `zzz`. -/
def wMgrZ : TaskManager := { tasks := [wTaskZ], projects := [] }

/-- A manager with one project and two tasks, one of them in that
project. -/
def wMgrDel : TaskManager := { tasks := [wTaskA, wTaskOutScope], projects := [wProject] }

end TaskMgr

/-! ## Progress tracker (progress.js, class ProgressTracker) -/

namespace Progress

/-- The `dailyStats` aggregate of a `ProgressTracker`, dated with the
`YYYY-MM-DD` string produced by `_getCurrentDateString`. -/
structure DailyStats where
  date : String
  completedTasks : Nat
  completedPomodoros : Nat
  totalFocusTime : Nat
  plannedTasks : Nat
  plannedPomodoros : Nat
deriving DecidableEq

/-- An all-zero aggregate for a given date, as built by the reset branch of
`updateDailyStats`. -/
def freshStats (date : String) : DailyStats :=
  { date := date, completedTasks := 0, completedPomodoros := 0,
    totalFocusTime := 0, plannedTasks := 0, plannedPomodoros := 0 }

/-- The partial `stats` object spread onto `dailyStats` by
`updateDailyStats` (`{ ...this.dailyStats, ...stats }`); the record methods
only ever pass counter fields, never `date`. -/
structure StatsPatch where
  completedTasks : Option Nat
  completedPomodoros : Option Nat
  totalFocusTime : Option Nat
  plannedTasks : Option Nat
  plannedPomodoros : Option Nat
deriving DecidableEq

/-- A patch that overrides nothing. -/
def emptyPatch : StatsPatch :=
  { completedTasks := none, completedPomodoros := none, totalFocusTime := none,
    plannedTasks := none, plannedPomodoros := none }

/-- The object spread `{ ...s, ...p }`. -/
def applyPatch (s : DailyStats) (p : StatsPatch) : DailyStats :=
  { s with
    completedTasks := p.completedTasks.getD s.completedTasks
    completedPomodoros := p.completedPomodoros.getD s.completedPomodoros
    totalFocusTime := p.totalFocusTime.getD s.totalFocusTime
    plannedTasks := p.plannedTasks.getD s.plannedTasks
    plannedPomodoros := p.plannedPomodoros.getD s.plannedPomodoros }

/-- The state of a `ProgressTracker` instance: the current aggregate and the
`history` object keyed by date (an association list whose most recent write
shadows older entries, like JS object assignment). -/
structure ProgressTracker where
  dailyStats : DailyStats
  history : List (String × DailyStats)
deriving DecidableEq

/-- `updateDailyStats(stats)`: if the wall-clock date `today` differs from
the stored aggregate's date, archive the aggregate into `history` under its
own date and reset to an all-zero aggregate for `today`; then spread the
patch over the (possibly reset) aggregate. The wall clock is an explicit
parameter. -/
def updateDailyStats (today : String) (p : StatsPatch) (tr : ProgressTracker) :
    ProgressTracker :=
  let tr1 :=
    if today ≠ tr.dailyStats.date then
      { tr with
        history := (tr.dailyStats.date, tr.dailyStats) :: tr.history
        dailyStats := freshStats today }
    else tr
  { tr1 with dailyStats := applyPatch tr1.dailyStats p }

/-- `recordTaskCompleted()`: note that the incremented value is computed
from `this.dailyStats` BEFORE `updateDailyStats` performs any day
rollover. -/
def recordTaskCompleted (today : String) (tr : ProgressTracker) : ProgressTracker :=
  updateDailyStats today
    { emptyPatch with completedTasks := some (tr.dailyStats.completedTasks + 1) } tr

/-- `recordTaskPlanned()`. -/
def recordTaskPlanned (today : String) (tr : ProgressTracker) : ProgressTracker :=
  updateDailyStats today
    { emptyPatch with plannedTasks := some (tr.dailyStats.plannedTasks + 1) } tr

/-- `recordPomodoroCompleted(minutes)`. -/
def recordPomodoroCompleted (today : String) (minutes : Nat) (tr : ProgressTracker) :
    ProgressTracker :=
  updateDailyStats today
    { emptyPatch with
      completedPomodoros := some (tr.dailyStats.completedPomodoros + 1)
      totalFocusTime := some (tr.dailyStats.totalFocusTime + minutes) } tr

/-- `recordPomodorosPlanned(count)`. -/
def recordPomodorosPlanned (today : String) (count : Nat) (tr : ProgressTracker) :
    ProgressTracker :=
  updateDailyStats today
    { emptyPatch with plannedPomodoros := some (tr.dailyStats.plannedPomodoros + count) } tr

/-- `getHistoricalProgress(date)`: exact lookup in `history`. -/
def getHistoricalProgress (date : String) (tr : ProgressTracker) : Option DailyStats :=
  tr.history.lookup date

/-- JS `Math.round` on the nonnegative values arising here:
`⌊q + 1/2⌋`. -/
def jsRound (q : ℚ) : Int :=
  Int.floor (q + 1 / 2)

/-- `getProgressPercentage()`: 0 when nothing is planned; otherwise the
per-measure completion ratios (a zero planned count guarding its division),
collapsed to the single planned measure when the other planned count is
zero, else the 50/50 weighted average; rounded to the nearest integer and
capped at 100. JS float arithmetic is modelled by exact rationals. -/
def getProgressPercentage (s : DailyStats) : Int :=
  if s.plannedTasks = 0 ∧ s.plannedPomodoros = 0 then 0
  else
    let taskWeight : ℚ := 1 / 2
    let pomodoroWeight : ℚ := 1 / 2
    let taskPercentage : ℚ :=
      if s.plannedTasks > 0 then
        ((s.completedTasks : ℚ) / (s.plannedTasks : ℚ)) * 100
      else 0
    let pomodoroPercentage : ℚ :=
      if s.plannedPomodoros > 0 then
        ((s.completedPomodoros : ℚ) / (s.plannedPomodoros : ℚ)) * 100
      else 0
    let weightedPercentage : ℚ :=
      if s.plannedTasks = 0 then pomodoroPercentage
      else if s.plannedPomodoros = 0 then taskPercentage
      else taskPercentage * taskWeight + pomodoroPercentage * pomodoroWeight
    min (jsRound weightedPercentage) 100

/-- The claim's reading of `getProgressPercentage`, stated independently
from the implementation: 0 when both planned counts are 0; the single
nonzero measure's rounded, capped ratio when exactly one planned count is 0;
otherwise the rounded, capped 50/50 average of the two ratios. -/
def progressPercentageSpec (s : DailyStats) : Int :=
  if s.plannedTasks = 0 ∧ s.plannedPomodoros = 0 then 0
  else if s.plannedTasks = 0 then
    min (jsRound ((s.completedPomodoros : ℚ) / (s.plannedPomodoros : ℚ) * 100)) 100
  else if s.plannedPomodoros = 0 then
    min (jsRound ((s.completedTasks : ℚ) / (s.plannedTasks : ℚ) * 100)) 100
  else
    min (jsRound (((s.completedTasks : ℚ) / (s.plannedTasks : ℚ) * 100
      + (s.completedPomodoros : ℚ) / (s.plannedPomodoros : ℚ) * 100) / 2)) 100

/-- A concrete tracker mid-way through 2024-01-01. -/
def wTracker : ProgressTracker :=
  { dailyStats :=
      { date := "2024-01-01", completedTasks := 5, completedPomodoros := 2,
        totalFocusTime := 50, plannedTasks := 7, plannedPomodoros := 8 }
    history := [] }

end Progress

/-! ## Persistence layer (src/js/storage.js, class StorageManager)

`localStorage` is modelled as an association list from keys to stored
strings, and `JSON.stringify` / `JSON.parse` on the persisted task arrays
are modelled by an executable character-level codec producing the canonical
JSON text `JSON.stringify` emits for the task objects (insertion-order keys,
no whitespace, strings escaping the quote and backslash characters). -/

namespace Storage

/-- The `"` character. -/
def quoteChar : Char := Char.ofNat 34

/-- The `\` character. -/
def backslashChar : Char := Char.ofNat 92

/-- The opening brace character. -/
def lbraceChar : Char := Char.ofNat 123

/-- The closing brace character. -/
def rbraceChar : Char := Char.ofNat 125

/-- JSON string escaping of one character (quote and backslash get a
backslash prefix). -/
def escapeChar (c : Char) : List Char :=
  if c = quoteChar ∨ c = backslashChar then [backslashChar, c] else [c]

/-- JSON string escaping of a character sequence. -/
def encodeStringBody : List Char → List Char
  | [] => []
  | c :: cs => escapeChar c ++ encodeStringBody cs

/-- `JSON.stringify` of a string: quoted and escaped. -/
def encodeString (s : String) : List Char :=
  quoteChar :: encodeStringBody s.data ++ [quoteChar]

/-- Parses an escaped string body up to the closing quote (a lone
trailing character or a dangling escape is a parse error). -/
def parseStringAux : List Char → Option (List Char × List Char)
  | [] => none
  | [c] => if c = quoteChar then some ([], []) else none
  | c :: d :: rest =>
    if c = quoteChar then some ([], d :: rest)
    else if c = backslashChar then
      (parseStringAux rest).map (fun r => (d :: r.1, r.2))
    else
      (parseStringAux (d :: rest)).map (fun r => (c :: r.1, r.2))

/-- Parses a JSON string literal. -/
def parseString (input : List Char) : Option (String × List Char) :=
  match input with
  | [] => none
  | c :: rest =>
    if c = quoteChar then
      match parseStringAux rest with
      | none => none
      | some (body, r) => some (String.mk body, r)
    else none

/-- Big-endian decimal digits of `n` (with enough fuel), as
`JSON.stringify` renders these natural counters. -/
def encodeNatAux : Nat → Nat → List Char
  | 0, _ => []
  | fuel + 1, n =>
    if n = 0 then [] else encodeNatAux fuel (n / 10) ++ [Nat.digitChar (n % 10)]

/-- `JSON.stringify` of a natural number. -/
def encodeNat (n : Nat) : List Char :=
  if n = 0 then ['0'] else encodeNatAux (n + 1) n

/-- Consumes a maximal digit run, accumulating its value. -/
def parseNatAux : List Char → Nat → Nat × List Char
  | [], acc => (acc, [])
  | c :: cs, acc =>
    if c.isDigit then parseNatAux cs (acc * 10 + (c.toNat - 48)) else (acc, c :: cs)

/-- Parses a decimal natural number (at least one digit). -/
def parseNat (input : List Char) : Option (Nat × List Char) :=
  match input with
  | [] => none
  | c :: cs => if c.isDigit then some (parseNatAux (c :: cs) 0) else none

/-- Whether the input starts with a digit (used to delimit number
parses). -/
def digitStart : List Char → Bool
  | [] => false
  | c :: _ => c.isDigit

/-- `JSON.stringify` of a boolean. -/
def encodeBool : Bool → List Char
  | true => ['t', 'r', 'u', 'e']
  | false => ['f', 'a', 'l', 's', 'e']

/-- Consumes an expected literal character sequence. -/
def expectChars : List Char → List Char → Option (List Char)
  | [], input => some input
  | _ :: _, [] => none
  | p :: ps, c :: cs => if c = p then expectChars ps cs else none

/-- Parses a JSON boolean literal. -/
def parseBool (input : List Char) : Option (Bool × List Char) :=
  match expectChars ['t', 'r', 'u', 'e'] input with
  | some r => some (true, r)
  | none =>
    match expectChars ['f', 'a', 'l', 's', 'e'] input with
    | some r => some (false, r)
    | none => none

/-- `JSON.stringify` of a nullable string field (`null` or a string). -/
def encodeNullableString : Option String → List Char
  | none => ['n', 'u', 'l', 'l']
  | some s => encodeString s

/-- Parses `null` or a JSON string literal. -/
def parseNullableString (input : List Char) : Option (Option String × List Char) :=
  match expectChars ['n', 'u', 'l', 'l'] input with
  | some r => some (none, r)
  | none =>
    match parseString input with
    | none => none
    | some (s, r) => some (some s, r)

/-- The `"key":` token of a JSON object member. -/
def keyTok (name : String) : List Char :=
  quoteChar :: name.data ++ [quoteChar, ':']

/-- `JSON.stringify` of a subtask object, keys in insertion order. -/
def encodeSubtask (s : TaskMgr.Subtask) : List Char :=
  (lbraceChar :: keyTok ("id")) ++ encodeString s.id
    ++ ((',' :: keyTok ("name")) ++ encodeString s.name)
    ++ ((',' :: keyTok ("completed")) ++ encodeBool s.completed)
    ++ [rbraceChar]

/-- Parses a subtask object. -/
def parseSubtask (input : List Char) : Option (TaskMgr.Subtask × List Char) := do
  let r1 ← expectChars (lbraceChar :: keyTok ("id")) input
  let (idv, r2) ← parseString r1
  let r3 ← expectChars (',' :: keyTok ("name")) r2
  let (namev, r4) ← parseString r3
  let r5 ← expectChars (',' :: keyTok ("completed")) r4
  let (compv, r6) ← parseBool r5
  let r7 ← expectChars [rbraceChar] r6
  some ({ id := idv, name := namev, completed := compv }, r7)

/-- The comma-separated element run of a `JSON.stringify`ed array. -/
def encodeListBody (enc : α → List Char) : List α → List Char
  | [] => []
  | [x] => enc x
  | x :: y :: xs => enc x ++ (',' :: encodeListBody enc (y :: xs))

/-- `JSON.stringify` of an array. -/
def encodeList (enc : α → List Char) (xs : List α) : List Char :=
  '[' :: encodeListBody enc xs ++ [']']

/-- Parses the comma-separated nonempty element run of an array, up to and
including the closing bracket; the fuel bounds the element count. -/
def parseListAux (p : List Char → Option (α × List Char)) :
    Nat → List Char → Option (List α × List Char)
  | 0, _ => none
  | fuel + 1, input =>
    match p input with
    | none => none
    | some (x, rest) =>
      match rest with
      | ',' :: rest2 =>
        match parseListAux p fuel rest2 with
        | none => none
        | some (xs, r) => some (x :: xs, r)
      | ']' :: rest2 => some ([x], rest2)
      | _ => none

/-- Parses a JSON array with the given element parser. -/
def parseList (p : List Char → Option (α × List Char)) (input : List Char) :
    Option (List α × List Char) :=
  match input with
  | '[' :: c :: cs =>
    if c = ']' then some ([], cs)
    else parseListAux p ((c :: cs).length + 1) (c :: cs)
  | _ => none

/-- `JSON.stringify` of a task object, keys in the insertion order of
`createTask`. -/
def encodeTask (t : TaskMgr.Task) : List Char :=
  (lbraceChar :: keyTok ("id")) ++ encodeString t.id
    ++ ((',' :: keyTok ("name")) ++ encodeString t.name)
    ++ ((',' :: keyTok ("completed")) ++ encodeBool t.completed)
    ++ ((',' :: keyTok ("priority")) ++ encodeNat t.priority)
    ++ ((',' :: keyTok ("projectId")) ++ encodeNullableString t.projectId)
    ++ ((',' :: keyTok ("dueDate")) ++ encodeNullableString t.dueDate)
    ++ ((',' :: keyTok ("estimatedPomodoros")) ++ encodeNat t.estimatedPomodoros)
    ++ ((',' :: keyTok ("completedPomodoros")) ++ encodeNat t.completedPomodoros)
    ++ ((',' :: keyTok ("notes")) ++ encodeString t.notes)
    ++ ((',' :: keyTok ("subtasks")) ++ encodeList encodeSubtask t.subtasks)
    ++ ((',' :: keyTok ("createdAt")) ++ encodeString t.createdAt)
    ++ ((',' :: keyTok ("updatedAt")) ++ encodeString t.updatedAt)
    ++ [rbraceChar]

/-- Parses the leading task fields (id, name, completed). -/
def parseTaskHead (input : List Char) :
    Option ((String × String × Bool) × List Char) := do
  let r1 ← expectChars (lbraceChar :: keyTok ("id")) input
  let (idv, r2) ← parseString r1
  let r3 ← expectChars (',' :: keyTok ("name")) r2
  let (namev, r4) ← parseString r3
  let r5 ← expectChars (',' :: keyTok ("completed")) r4
  let (compv, r6) ← parseBool r5
  some ((idv, namev, compv), r6)

/-- Parses the middle task fields (priority, projectId, dueDate,
estimatedPomodoros, completedPomodoros). -/
def parseTaskMid (input : List Char) :
    Option ((Nat × Option String × Option String × Nat × Nat) × List Char) := do
  let r7 ← expectChars (',' :: keyTok ("priority")) input
  let (priov, r8) ← parseNat r7
  let r9 ← expectChars (',' :: keyTok ("projectId")) r8
  let (projv, r10) ← parseNullableString r9
  let r11 ← expectChars (',' :: keyTok ("dueDate")) r10
  let (duev, r12) ← parseNullableString r11
  let r13 ← expectChars (',' :: keyTok ("estimatedPomodoros")) r12
  let (estv, r14) ← parseNat r13
  let r15 ← expectChars (',' :: keyTok ("completedPomodoros")) r14
  let (cpv, r16) ← parseNat r15
  some ((priov, projv, duev, estv, cpv), r16)

/-- Parses the trailing task fields (notes, subtasks, createdAt,
updatedAt) and the closing brace. -/
def parseTaskTail (input : List Char) :
    Option ((String × List TaskMgr.Subtask × String × String) × List Char) := do
  let r17 ← expectChars (',' :: keyTok ("notes")) input
  let (notesv, r18) ← parseString r17
  let r19 ← expectChars (',' :: keyTok ("subtasks")) r18
  let (subsv, r20) ← parseList parseSubtask r19
  let r21 ← expectChars (',' :: keyTok ("createdAt")) r20
  let (crv, r22) ← parseString r21
  let r23 ← expectChars (',' :: keyTok ("updatedAt")) r22
  let (upv, r24) ← parseString r23
  let r25 ← expectChars [rbraceChar] r24
  some ((notesv, subsv, crv, upv), r25)

/-- Parses a task object. -/
def parseTask (input : List Char) : Option (TaskMgr.Task × List Char) := do
  let (h, r6) ← parseTaskHead input
  let (m, r16) ← parseTaskMid r6
  let (t, r25) ← parseTaskTail r16
  some ({ id := h.1, name := h.2.1, completed := h.2.2, priority := m.1,
          projectId := m.2.1, dueDate := m.2.2.1, estimatedPomodoros := m.2.2.2.1,
          completedPomodoros := m.2.2.2.2, notes := t.1, subtasks := t.2.1,
          createdAt := t.2.2.1, updatedAt := t.2.2.2 }, r25)

/-- `JSON.stringify` of a task array, as `save` stores it. -/
def encodeTasksText (ts : List TaskMgr.Task) : String :=
  String.mk (encodeList encodeTask ts)

/-- `JSON.parse` of a stored task-array text: the whole text must be one
array (trailing garbage is a parse error). -/
def parseTasksText (s : String) : Option (List TaskMgr.Task) :=
  match parseList parseTask s.data with
  | some (ts, []) => some ts
  | _ => none

/-- The browser `localStorage`: an association list from keys to stored
strings, newest write first. -/
abbrev Store := List (String × String)

/-- `localStorage.getItem` (null when absent). -/
def getItem (st : Store) (key : String) : Option String :=
  st.lookup key

/-- `localStorage.setItem`. -/
def setItem (st : Store) (key text : String) : Store :=
  (key, text) :: st

/-- `StorageManager.save(key, data)`: stores the serialised text. -/
def save (st : Store) (key text : String) : Store :=
  setItem st key text

/-- `StorageManager.load(key, defaultValue)`: absent key (or a falsy empty
stored string) yields the default; a stored value that fails to parse is
caught locally and yields the default; otherwise the parsed value. The
deserialiser for the domain is the `dec` parameter (`JSON.parse`
specialised to the stored shape). -/
def load {α : Type} (dec : String → Option α) (st : Store) (key : String) (default : α) : α :=
  match getItem st key with
  | none => default
  | some s =>
    if s = "" then default
    else
      match dec s with
      | some v => v
      | none => default

/-- The `StorageKeys.TASKS` key. -/
def TASKS_KEY : String := "focusTodo.tasks"

/-- `StorageManager.saveTasks(tasks)`. -/
def saveTasks (ts : List TaskMgr.Task) (st : Store) : Store :=
  save st TASKS_KEY (encodeTasksText ts)

/-- `StorageManager.loadTasks()`, with `[]` as the documented default. -/
def loadTasks (st : Store) : List TaskMgr.Task :=
  load parseTasksText st TASKS_KEY []

/-- A concrete decoder for the C8 witness: accepts exactly the text
`42`. -/
def wDec (s : String) : Option Nat :=
  if s = "42" then some 42 else none

end Storage

/-! ## Theorems -/

namespace Timer

/-- While `timeRemaining` covers them, ticks only count down. -/
theorem tickN_countdown (settings : TimerSettings) :
    ∀ (n : Nat) (s : TimerState), n ≤ s.timeRemaining →
      tickN settings n s = { s with timeRemaining := s.timeRemaining - n } := by
  intro n
  induction n with
  | zero => intro s _; simp [tickN]
  | succ k ih =>
    intro s hle
    have hpos : s.timeRemaining > 0 := Nat.lt_of_lt_of_le (Nat.succ_pos k) hle
    have hstep : tickTimer settings s = { s with timeRemaining := s.timeRemaining - 1 } := by
      simp [tickTimer, hpos]
    rw [tickN, hstep, ih]
    · simp only []
      congr 1
      omega
    · simp only []
      omega

/-- A run of `n + 1` ticks is a run of `n` ticks followed by one tick. -/
theorem tickN_succ_last (settings : TimerSettings) :
    ∀ (n : Nat) (s : TimerState),
      tickN settings (n + 1) s = tickTimer settings (tickN settings n s) := by
  intro n
  induction n with
  | zero => intro s; rfl
  | succ k ih =>
    intro s
    rw [tickN, ih, tickN]

/-- C1: completing a focus interval increments `completedPomodoros` and then
selects the next mode by `completedPomodoros % longBreakInterval == 0`: when
the incremented count is divisible by the interval the mode becomes
`longBreak`, otherwise `shortBreak`, and `timeRemaining` is set to the
selected break's configured duration. -/
theorem completeTimer_break_selection (settings : TimerSettings) (s : TimerState)
    (hk : 1 ≤ settings.longBreakInterval) (hmode : s.currentMode = TimerMode.pomodoro) :
    (completeTimer settings s).completedPomodoros = s.completedPomodoros + 1 ∧
    ((s.completedPomodoros + 1) % settings.longBreakInterval = 0 →
      (completeTimer settings s).currentMode = TimerMode.longBreak ∧
      (completeTimer settings s).timeRemaining = settings.longBreak) ∧
    ((s.completedPomodoros + 1) % settings.longBreakInterval ≠ 0 →
      (completeTimer settings s).currentMode = TimerMode.shortBreak ∧
      (completeTimer settings s).timeRemaining = settings.shortBreak) := by
  by_cases hz : (s.completedPomodoros + 1) % settings.longBreakInterval = 0 <;>
    cases hcur : s.currentTask <;>
      simp [completeTimer, pauseTimer, switchTimerMode, TimerSettings.duration, hmode, hcur, hz]

/-- Witness for C1: with the default settings (interval 4), the completion
after three prior focus sessions selects the long break. -/
theorem completeTimer_break_selection_witness :
    (completeTimer DEFAULT_SETTINGS wTimerState).completedPomodoros = 4 ∧
    (completeTimer DEFAULT_SETTINGS wTimerState).currentMode = TimerMode.longBreak ∧
    (completeTimer DEFAULT_SETTINGS wTimerState).timeRemaining = DEFAULT_SETTINGS.longBreak := by
  have h := completeTimer_break_selection DEFAULT_SETTINGS wTimerState (by decide) (by decide)
  exact ⟨h.1, (h.2.1 (by decide)).1, (h.2.1 (by decide)).2⟩

/-- C2 counterexample: starting the timer at the 1500-second focus duration
and ticking exactly 1500 times leaves `timeRemaining` at 0 but does NOT
trigger completion: no pomodoro is counted and the mode is still `pomodoro`,
not `shortBreak` as the claim states. -/
theorem tick1500_no_completion :
    (tickN DEFAULT_SETTINGS 1500 (startTimer initialTimerState)).timeRemaining = 0 ∧
    (tickN DEFAULT_SETTINGS 1500 (startTimer initialTimerState)).completedPomodoros = 0 ∧
    (tickN DEFAULT_SETTINGS 1500 (startTimer initialTimerState)).currentMode ≠ TimerMode.shortBreak := by
  have h := tickN_countdown DEFAULT_SETTINGS 1500 (startTimer initialTimerState) (by decide)
  rw [h]
  exact ⟨by decide, by decide, by decide⟩

/-- C2 amended: from the idle initial state, `start()` followed by 1500 ticks
drives `timeRemaining` to 0 with no completion yet (mode still `pomodoro`,
zero completed sessions); the next (1501st) tick triggers the focus
completion exactly once, leaving one completed session, mode `shortBreak`
and `timeRemaining` equal to the short break duration. -/
theorem tick1501_first_completion :
    (tickN DEFAULT_SETTINGS 1500 (startTimer initialTimerState)).timeRemaining = 0 ∧
    (tickN DEFAULT_SETTINGS 1500 (startTimer initialTimerState)).currentMode = TimerMode.pomodoro ∧
    (tickN DEFAULT_SETTINGS 1500 (startTimer initialTimerState)).completedPomodoros = 0 ∧
    (tickN DEFAULT_SETTINGS 1501 (startTimer initialTimerState)).completedPomodoros = 1 ∧
    (tickN DEFAULT_SETTINGS 1501 (startTimer initialTimerState)).currentMode = TimerMode.shortBreak ∧
    (tickN DEFAULT_SETTINGS 1501 (startTimer initialTimerState)).timeRemaining = DEFAULT_SETTINGS.shortBreak := by
  have h := tickN_countdown DEFAULT_SETTINGS 1500 (startTimer initialTimerState) (by decide)
  have h2 := tickN_succ_last DEFAULT_SETTINGS 1500 (startTimer initialTimerState)
  rw [h2, h]
  exact ⟨by decide, by decide, by decide, by decide, by decide, by decide⟩

end Timer

namespace TaskMgr

/-- A hit in the reorder `taskMap` matches the requested id and is an
existing task. -/
theorem taskMapFind_some {ts : List Task} {i : String} {t : Task}
    (h : taskMapFind ts i = some t) : t.id = i ∧ t ∈ ts := by
  have h1 := List.find?_some h
  have h2 := List.mem_of_find?_eq_some h
  exact ⟨by simpa using h1, List.mem_reverse.mp h2⟩

/-- The reorder `taskMap` misses exactly when no task has the id. -/
theorem taskMapFind_eq_none {ts : List Task} {i : String} :
    taskMapFind ts i = none ↔ ∀ t ∈ ts, t.id ≠ i := by
  unfold taskMapFind
  rw [List.find?_eq_none]
  constructor
  · intro h t ht
    have := h t (List.mem_reverse.mpr ht)
    simpa using this
  · intro h t ht
    have := h t (List.mem_reverse.mp ht)
    simpa using this

/-- Among tasks with pairwise distinct ids, `find?` by a member's id finds
that member. -/
theorem find?_id_of_nodup :
    ∀ (l : List Task), (l.map Task.id).Nodup → ∀ (a : Task), a ∈ l →
      l.find? (fun t => t.id = a.id) = some a := by
  intro l
  induction l with
  | nil => intro _ a ha; cases ha
  | cons x xs ih =>
    intro hnd a ha
    rw [List.map_cons, List.nodup_cons] at hnd
    rcases List.mem_cons.mp ha with h | h
    · subst h
      simp
    · have hx : ¬ (x.id = a.id) := by
        intro he
        exact hnd.1 (he ▸ List.mem_map_of_mem Task.id h)
      rw [List.find?_cons_of_neg _ (by simpa using hx)]
      exact ih hnd.2 a h

/-- With distinct task ids, the reorder `taskMap` sends a member's id to
that member. -/
theorem taskMapFind_of_mem {ts : List Task} (hts : (ts.map Task.id).Nodup)
    {a : Task} (ha : a ∈ ts) : taskMapFind ts a.id = some a := by
  unfold taskMapFind
  exact find?_id_of_nodup ts.reverse (by simpa using List.nodup_reverse.mpr hts) a
    (List.mem_reverse.mpr ha)

/-- The ids of the explicitly ordered block are exactly the requested ids
that name an existing task, in the requested order. -/
theorem filterMap_taskMapFind_map_id (ts : List Task) :
    ∀ (ids : List String),
      (ids.filterMap (taskMapFind ts)).map Task.id
        = ids.filter (fun i => ts.any (fun t => t.id = i)) := by
  intro ids
  induction ids with
  | nil => rfl
  | cons i is ih =>
    cases hfm : taskMapFind ts i with
    | none =>
      have hany : ts.any (fun t => t.id = i) = false := by
        rw [List.any_eq_false]
        intro t ht
        have := (taskMapFind_eq_none.mp hfm) t ht
        simpa using this
      simp [List.filterMap_cons, hfm, List.filter_cons, hany, ih]
    | some t =>
      obtain ⟨hid, hmem⟩ := taskMapFind_some hfm
      have hany : ts.any (fun t => t.id = i) = true := by
        rw [List.any_eq_true]
        exact ⟨t, hmem, by simpa using hid⟩
      simp [List.filterMap_cons, hfm, List.filter_cons, hany, ih, hid]

/-- C5 amended: `reorderTasks(orderedIds)` splits the collection into the
explicitly ordered block followed by the unlisted block: the ordered block's
ids are exactly the requested ids that name an existing task, in the
requested order (nonexistent ids are ignored); the trailing block consists
of every task not referenced by `orderedIds` — regardless of any project
scope — in its prior relative order (a sublist of the original
collection). -/
theorem reorderTasks_split (ts : List Task) (ids : List String) :
    ∃ pre post,
      reorderTasks ids ts = pre ++ post ∧
      pre.map Task.id = ids.filter (fun i => ts.any (fun t => t.id = i)) ∧
      post = ts.filter (fun t => !(ids.contains t.id)) ∧
      post.Sublist ts := by
  refine ⟨ids.filterMap (taskMapFind ts), ts.filter (fun t => !(ids.contains t.id)),
    rfl, filterMap_taskMapFind_map_id ts ids, rfl, List.filter_sublist ts⟩

/-- C5 counterexample: with tasks `[c, a, b]` where `c` belongs to another
project (out of the reorder's scope), `reorderTasks(["b","a"])` moves `c`
from the front to the back instead of leaving it untouched in its original
position. -/
theorem reorder_moves_unlisted_task :
    reorderTasks ["b", "a"] [wTaskOutScope, wTaskA, wTaskB]
      = [wTaskB, wTaskA, wTaskOutScope] ∧
    (reorderTasks ["b", "a"] [wTaskOutScope, wTaskA, wTaskB]).head? ≠ some wTaskOutScope := by
  decide

/-- C10: on a collection with pairwise distinct task ids (the store
invariant) and a duplicate-free `orderedIds` list, `reorderTasks` yields a
permutation of the original collection: no task is lost and none is
duplicated. -/
theorem reorderTasks_perm (ts : List Task) (ids : List String)
    (hts : (ts.map Task.id).Nodup) (hids : ids.Nodup) :
    (reorderTasks ids ts).Perm ts := by
  rw [List.perm_iff_count]
  intro a
  unfold reorderTasks
  rw [List.count_append, List.count_filterMap]
  by_cases hmem : a ∈ ts
  · have hts' : ts.Nodup := List.Nodup.of_map _ hts
    have hcount : ts.count a = 1 := List.count_eq_one_of_mem hts' hmem
    by_cases hid : a.id ∈ ids
    · have h1 : ids.countP (fun i => taskMapFind ts i == some a)
          = ids.countP (fun i => i == a.id) := by
        apply List.countP_congr
        intro i _
        simp only [beq_iff_eq]
        constructor
        · intro hf
          exact ((taskMapFind_some hf).1).symm
        · intro he
          subst he
          exact taskMapFind_of_mem hts hmem
      have h2 : ids.countP (fun i => i == a.id) = 1 := by
        rw [← List.count_eq_countP]
        exact List.count_eq_one_of_mem hids hid
      have h3 : (ts.filter (fun t => !(ids.contains t.id))).count a = 0 := by
        rw [List.count_eq_zero]
        intro hmemf
        have := (List.mem_filter.mp hmemf).2
        simp [List.contains, List.elem_iff] at this
        exact this hid
      rw [h1, h2, h3, hcount]
    · have h1 : ids.countP (fun i => taskMapFind ts i == some a) = 0 := by
        rw [List.countP_eq_zero]
        intro i hi hbeq
        rw [beq_iff_eq] at hbeq
        exact hid (((taskMapFind_some hbeq).1) ▸ hi)
      have h2 : (ts.filter (fun t => !(ids.contains t.id))).count a = ts.count a := by
        apply List.count_filter
        simp [List.contains, List.elem_iff]
        exact hid
      rw [h1, h2]
      omega
  · have hcount : ts.count a = 0 := List.count_eq_zero_of_not_mem hmem
    have h1 : ids.countP (fun i => taskMapFind ts i == some a) = 0 := by
      rw [List.countP_eq_zero]
      intro i hi hbeq
      rw [beq_iff_eq] at hbeq
      exact hmem (taskMapFind_some hbeq).2
    have h2 : (ts.filter (fun t => !(ids.contains t.id))).count a = 0 := by
      have := (List.filter_sublist (p := fun t => !(ids.contains t.id)) ts).count_le a
      omega
    rw [h1, h2, hcount]

/-- Witness for C10: a concrete duplicate-free reorder of a two-task
collection is a permutation of it. -/
theorem reorderTasks_perm_witness :
    (([wTaskA, wTaskB].map Task.id).Nodup ∧ (["b", "a"] : List String).Nodup) ∧
    (reorderTasks ["b", "a"] [wTaskA, wTaskB]).Perm [wTaskA, wTaskB] :=
  ⟨⟨by decide, by decide⟩, reorderTasks_perm [wTaskA, wTaskB] ["b", "a"] (by decide) (by decide)⟩

/-- C6: deleting a project that exists removes it from the project list,
clears `projectId` (to null) on exactly the tasks that pointed to it while
leaving every task otherwise untouched and deleting none, and fires the
projects-changed and tasks-changed callbacks. -/
theorem deleteProject_cascade_clear (m : TaskManager) (pid : String)
    (h : pid ∈ m.projects.map Project.id) :
    (deleteProject pid m).1.projects = m.projects.filter (fun p => p.id ≠ pid) ∧
    (∀ p ∈ (deleteProject pid m).1.projects, p.id ≠ pid) ∧
    (deleteProject pid m).1.tasks
      = m.tasks.map (fun t =>
          if t.projectId = some pid then { t with projectId := none } else t) ∧
    (deleteProject pid m).1.tasks.length = m.tasks.length ∧
    (deleteProject pid m).2.1 = true ∧
    (deleteProject pid m).2.2 = [ChangeEvent.projectsChanged, ChangeEvent.tasksChanged] := by
  obtain ⟨p0, hp0, hp0id⟩ := List.mem_map.mp h
  have hcond : (m.projects.filter (fun p => p.id ≠ pid)).length ≠ m.projects.length := by
    intro heq
    have := (List.filter_length_eq_length.mp heq) p0 hp0
    simp [hp0id] at this
  have hunf :
      deleteProject pid m
        = ({ m with projects := m.projects.filter (fun p => p.id ≠ pid),
                    tasks := m.tasks.map (clearProjectId pid) },
           true, [ChangeEvent.projectsChanged, ChangeEvent.tasksChanged]) := by
    unfold deleteProject
    rw [if_pos hcond]
  rw [hunf]
  refine ⟨rfl, ?_, ?_, by simp, rfl, rfl⟩
  · intro p hp
    have := (List.mem_filter.mp hp).2
    simpa using this
  · simp only []
    apply List.map_congr_left
    intro t _
    rfl

/-- Witness for C6: deleting the present project `p1` from a concrete
manager clears the pointing task's `projectId`, keeps both tasks, and fires
both callbacks. -/
theorem deleteProject_cascade_clear_witness :
    (deleteProject ("p1") wMgrDel).1.tasks
      = wMgrDel.tasks.map (fun t =>
          if t.projectId = some ("p1") then { t with projectId := none } else t) ∧
    (deleteProject ("p1") wMgrDel).1.tasks.length = wMgrDel.tasks.length ∧
    (deleteProject ("p1") wMgrDel).2.1 = true ∧
    (deleteProject ("p1") wMgrDel).2.2 = [ChangeEvent.projectsChanged, ChangeEvent.tasksChanged] := by
  have h := deleteProject_cascade_clear wMgrDel ("p1") (by decide)
  exact ⟨h.2.2.1, h.2.2.2.1, h.2.2.2.2.1, h.2.2.2.2.2⟩

/-- C7 counterexample: two `createTask` calls made at the same millisecond
timestamp with the same random draw produce the same generated id, so the
second task's id collides with a task already in the store — `createTask`
performs no uniqueness check. -/
theorem createTask_id_collision :
    wMgr1.tasks ≠ [] ∧
    (createTask 0 0 ("2020-01-01T00:00:01.000Z") (defaultTaskData ("second")) wMgr1).1.id
      ∈ wMgr1.tasks.map Task.id := by
  decide

/-- C7 amended: a created task starts uncompleted with the documented
defaults (priority medium, no project, empty subtasks, pomodoro counts
0 of 1) and is appended at the end of the collection; and WHEN the
generated id differs from every id already in the store — which the code
does not itself guarantee — the new task's id is distinct from all existing
ones and id-uniqueness of the collection is preserved. -/
theorem createTask_appends_with_defaults (m : TaskManager) (now rand : Nat)
    (nowIso name : String)
    (hfresh : generateId now rand ∉ m.tasks.map Task.id) :
    (createTask now rand nowIso (defaultTaskData name) m).1.completed = false ∧
    (createTask now rand nowIso (defaultTaskData name) m).1.priority = Priority.MEDIUM ∧
    (createTask now rand nowIso (defaultTaskData name) m).1.projectId = none ∧
    (createTask now rand nowIso (defaultTaskData name) m).1.subtasks = [] ∧
    (createTask now rand nowIso (defaultTaskData name) m).1.estimatedPomodoros = 1 ∧
    (createTask now rand nowIso (defaultTaskData name) m).1.completedPomodoros = 0 ∧
    (createTask now rand nowIso (defaultTaskData name) m).2.1.tasks
      = m.tasks ++ [(createTask now rand nowIso (defaultTaskData name) m).1] ∧
    (∀ t ∈ m.tasks, t.id ≠ (createTask now rand nowIso (defaultTaskData name) m).1.id) ∧
    ((m.tasks.map Task.id).Nodup →
      ((createTask now rand nowIso (defaultTaskData name) m).2.1.tasks.map Task.id).Nodup) := by
  refine ⟨rfl, rfl, rfl, rfl, rfl, rfl, rfl, ?_, ?_⟩
  · intro t ht he
    apply hfresh
    have hmm : t.id ∈ m.tasks.map Task.id := List.mem_map_of_mem Task.id ht
    rw [he] at hmm
    exact hmm
  · intro hnd
    have hid : (createTask now rand nowIso (defaultTaskData name) m).1.id
        = generateId now rand := rfl
    have : (createTask now rand nowIso (defaultTaskData name) m).2.1.tasks
        = m.tasks ++ [(createTask now rand nowIso (defaultTaskData name) m).1] := rfl
    rw [this, List.map_append, List.nodup_append]
    refine ⟨hnd, by simp, ?_⟩
    intro x hx
    simp only [List.map_cons, List.map_nil, List.mem_singleton]
    intro hy
    rw [hy, hid] at hx
    exact hfresh hx

/-- Witness for C7 (amended): creating a task with a fresh generated id in a
store holding one task keeps ids unique and appends at the end. -/
theorem createTask_appends_with_defaults_witness :
    (createTask 0 0 ("2020-01-01T00:00:00.000Z") (defaultTaskData ("n")) wMgrZ).1.completed = false ∧
    (createTask 0 0 ("2020-01-01T00:00:00.000Z") (defaultTaskData ("n")) wMgrZ).2.1.tasks
      = wMgrZ.tasks ++ [(createTask 0 0 ("2020-01-01T00:00:00.000Z") (defaultTaskData ("n")) wMgrZ).1] ∧
    ((createTask 0 0 ("2020-01-01T00:00:00.000Z") (defaultTaskData ("n")) wMgrZ).2.1.tasks.map
        Task.id).Nodup := by
  have h := createTask_appends_with_defaults wMgrZ 0 0 ("2020-01-01T00:00:00.000Z") ("n") (by decide)
  exact ⟨h.1, h.2.2.2.2.2.2.1, h.2.2.2.2.2.2.2.2 (by decide)⟩

end TaskMgr

namespace Progress

/-- C3, evaluation at the failing input: calling `recordTaskCompleted` one
calendar day after the stored aggregate's date does archive the prior day's
exact snapshot under its date key and zeroes every other counter of the new
day, but the incremented counter itself becomes `oldValue + 1` (here 6)
rather than `0 + 1`, because the increment was computed from the aggregate
before the rollover reset. -/
theorem rollover_stale_increment :
    (recordTaskCompleted ("2024-01-02") wTracker).history.lookup ("2024-01-01")
      = some wTracker.dailyStats ∧
    (recordTaskCompleted ("2024-01-02") wTracker).dailyStats.date = "2024-01-02" ∧
    (recordTaskCompleted ("2024-01-02") wTracker).dailyStats.completedPomodoros = 0 ∧
    (recordTaskCompleted ("2024-01-02") wTracker).dailyStats.totalFocusTime = 0 ∧
    (recordTaskCompleted ("2024-01-02") wTracker).dailyStats.plannedTasks = 0 ∧
    (recordTaskCompleted ("2024-01-02") wTracker).dailyStats.plannedPomodoros = 0 ∧
    (recordTaskCompleted ("2024-01-02") wTracker).dailyStats.completedTasks = 6 ∧
    (recordTaskCompleted ("2024-01-02") wTracker).dailyStats.completedTasks ≠ 0 + 1 := by
  decide

/-- Rounding a nonnegative rational stays nonnegative. -/
theorem jsRound_nonneg {q : ℚ} (hq : 0 ≤ q) : 0 ≤ jsRound q := by
  unfold jsRound
  have h2 : (0 : ℚ) ≤ q + 1 / 2 := by linarith
  exact_mod_cast Int.floor_nonneg.mpr h2

/-- The rounded, capped percentage lies in `[0, 100]`. -/
theorem min_jsRound_bounds {q : ℚ} (hq : 0 ≤ q) :
    0 ≤ min (jsRound q) 100 ∧ min (jsRound q) 100 ≤ 100 :=
  ⟨le_min (jsRound_nonneg hq) (by norm_num), min_le_right _ _⟩

/-- C4: `getProgressPercentage` agrees with the claim's case analysis —
0 when nothing is planned, the single planned measure's rounded capped ratio
when exactly one planned count is zero (so a zero `plannedPomodoros` never
divides and only the task ratio contributes), the rounded capped 50/50
average otherwise — and the result always lies between 0 and 100. -/
theorem getProgressPercentage_correct (s : DailyStats) :
    getProgressPercentage s = progressPercentageSpec s ∧
    0 ≤ getProgressPercentage s ∧ getProgressPercentage s ≤ 100 := by
  have hTq : (0 : ℚ) ≤ (s.completedTasks : ℚ) / (s.plannedTasks : ℚ) * 100 := by positivity
  have hPq : (0 : ℚ) ≤ (s.completedPomodoros : ℚ) / (s.plannedPomodoros : ℚ) * 100 := by
    positivity
  by_cases hT : s.plannedTasks = 0 <;> by_cases hP : s.plannedPomodoros = 0
  · simp [getProgressPercentage, progressPercentageSpec, hT, hP]
  · have hPpos : 0 < s.plannedPomodoros := Nat.pos_of_ne_zero hP
    simp [getProgressPercentage, progressPercentageSpec, hT, hP, hPpos]
    exact jsRound_nonneg hPq
  · have hTpos : 0 < s.plannedTasks := Nat.pos_of_ne_zero hT
    simp [getProgressPercentage, progressPercentageSpec, hT, hP, hTpos]
    exact jsRound_nonneg hTq
  · have hTpos : 0 < s.plannedTasks := Nat.pos_of_ne_zero hT
    have hPpos : 0 < s.plannedPomodoros := Nat.pos_of_ne_zero hP
    simp [getProgressPercentage, progressPercentageSpec, hT, hP, hTpos, hPpos]
    constructor
    · unfold jsRound
      ring_nf
    · exact jsRound_nonneg (by positivity)

end Progress

namespace Storage

/-- `expectChars` consumes exactly the expected literal. -/
theorem expectChars_append : ∀ (pat rest : List Char),
    expectChars pat (pat ++ rest) = some rest
  | [], _ => rfl
  | p :: ps, rest => by
    simp [expectChars, expectChars_append ps rest]

/-- One expected character is consumed when it matches. -/
theorem expectChars_cons_self (p : Char) (ps input : List Char) :
    expectChars (p :: ps) (p :: input) = expectChars ps input := by
  simp [expectChars]

/-- `expectChars` of the empty pattern consumes nothing. -/
theorem expectChars_nil (input : List Char) : expectChars [] input = some input := rfl

/-- The escaped string body parses back to the original characters, up to
the closing quote. -/
theorem parseStringAux_round : ∀ (cs rest : List Char),
    parseStringAux (encodeStringBody cs ++ quoteChar :: rest) = some (cs, rest)
  | [], rest => by
    cases rest with
    | nil => rfl
    | cons d X => rfl
  | c :: cs, rest => by
    have ih := parseStringAux_round cs rest
    by_cases h : c = quoteChar ∨ c = backslashChar
    · have hbq : ¬ (backslashChar = quoteChar) := by decide
      simp only [encodeStringBody, escapeChar, if_pos h, List.cons_append, List.nil_append]
      simp [parseStringAux, hbq, ih]
    · push_neg at h
      cases hX : encodeStringBody cs ++ quoteChar :: rest with
      | nil => exact absurd hX (by simp)
      | cons d X =>
        have hshape : encodeStringBody (c :: cs) ++ quoteChar :: rest = c :: d :: X := by
          simp only [encodeStringBody, escapeChar, List.cons_append, List.nil_append,
            if_neg (not_or.mpr h), List.append_assoc]
          rw [← hX]
        rw [hshape]
        simp only [parseStringAux, if_neg h.1, if_neg h.2]
        rw [← hX, ih]
        rfl

/-- A `JSON.stringify`ed string parses back to itself. -/
theorem parseString_round (s : String) (rest : List Char) :
    parseString (encodeString s ++ rest) = some (s, rest) := by
  have hshape : encodeString s ++ rest
      = quoteChar :: (encodeStringBody s.data ++ quoteChar :: rest) := by
    simp [encodeString]
  rw [hshape]
  simp [parseString, parseStringAux_round s.data rest]

/-- A `JSON.stringify`ed boolean parses back to itself. -/
theorem parseBool_round (b : Bool) (rest : List Char) :
    parseBool (encodeBool b ++ rest) = some (b, rest) := by
  cases b <;> rfl

/-- A `JSON.stringify`ed nullable string parses back to itself. -/
theorem parseNullableString_round (o : Option String) (rest : List Char) :
    parseNullableString (encodeNullableString o ++ rest) = some (o, rest) := by
  cases o with
  | none => rfl
  | some s =>
    have hmiss : expectChars ['n', 'u', 'l', 'l'] (encodeString s ++ rest) = none := by
      have hshape : encodeString s ++ rest
          = quoteChar :: (encodeStringBody s.data ++ quoteChar :: rest) := by
        simp [encodeString]
      rw [hshape]
      simp [expectChars, show ¬(quoteChar = 'n') from by decide]
    simp [parseNullableString, encodeNullableString, hmiss, parseString_round s rest]

/-- A decimal digit's character is a digit character. -/
theorem digitChar_isDigit (d : Nat) (h : d < 10) : (Nat.digitChar d).isDigit = true := by
  interval_cases d <;> decide

/-- A decimal digit's character decodes back to the digit. -/
theorem digitChar_val (d : Nat) (h : d < 10) : (Nat.digitChar d).toNat - 48 = d := by
  interval_cases d <;> decide

/-- `parseNatAux` consumes exactly a rendered digit run, folding up its
value, when what follows is not a digit. -/
theorem parseNatAux_digits : ∀ (ds : List Nat) (acc : Nat) (rest : List Char),
    (∀ d ∈ ds, d < 10) → digitStart rest = false →
    parseNatAux (ds.map Nat.digitChar ++ rest) acc
      = (ds.foldl (fun a d => a * 10 + d) acc, rest)
  | [], acc, rest, _, hrest => by
    cases rest with
    | nil => rfl
    | cons c cs =>
      simp only [digitStart] at hrest
      simp [parseNatAux, hrest]
  | d :: ds, acc, rest, hall, hrest => by
    have hd : d < 10 := hall d (List.mem_cons_self d ds)
    have ih := parseNatAux_digits ds (acc * 10 + d) rest
      (fun x hx => hall x (List.mem_cons_of_mem d hx)) hrest
    simp [parseNatAux, digitChar_isDigit d hd, digitChar_val d hd, ih]

/-- Folding the big-endian digits of a number onto an accumulator. -/
theorem foldl_reverse_ofDigits : ∀ (ds : List Nat) (acc : Nat),
    ds.reverse.foldl (fun a d => a * 10 + d) acc
      = acc * 10 ^ ds.length + Nat.ofDigits 10 ds
  | [], acc => by simp
  | d :: ds, acc => by
    have ih := foldl_reverse_ofDigits ds acc
    simp [List.reverse_cons, List.foldl_append, ih, Nat.ofDigits_cons, List.length_cons,
      pow_succ]
    ring

/-- With enough fuel, `encodeNatAux` renders the big-endian decimal
digits. -/
theorem encodeNatAux_eq_digits : ∀ (fuel n : Nat), n ≤ fuel →
    encodeNatAux fuel n = ((Nat.digits 10 n).reverse).map Nat.digitChar
  | 0, n, h => by
    obtain rfl : n = 0 := by omega
    simp [encodeNatAux]
  | fuel + 1, n, h => by
    by_cases hn : n = 0
    · subst hn
      simp [encodeNatAux]
    · have hdiv : n / 10 ≤ fuel := by
        have := Nat.div_lt_self (Nat.pos_of_ne_zero hn) (by norm_num : 1 < 10)
        omega
      have ih := encodeNatAux_eq_digits fuel (n / 10) hdiv
      rw [Nat.digits_def' (by norm_num : 1 < 10) (Nat.pos_of_ne_zero hn)]
      simp [encodeNatAux, hn, ih]

/-- A `JSON.stringify`ed natural number parses back to itself when the
following text does not begin with a digit. -/
theorem parseNat_round (n : Nat) (rest : List Char) (hrest : digitStart rest = false) :
    parseNat (encodeNat n ++ rest) = some (n, rest) := by
  by_cases hn : n = 0
  · subst hn
    show parseNat (['0'] ++ rest) = some (0, rest)
    cases rest with
    | nil => rfl
    | cons c cs =>
      simp only [digitStart] at hrest
      simp [parseNat, parseNatAux, hrest, show ('0').isDigit = true from by decide,
        show ('0').toNat - 48 = 0 from by decide]
  · have hne : Nat.digits 10 n ≠ [] := Nat.digits_ne_nil_iff_ne_zero.mpr hn
    have hrev : (Nat.digits 10 n).reverse ≠ [] := by simpa using hne
    obtain ⟨d, ds, hds⟩ := List.exists_cons_of_ne_nil hrev
    have hd10 : ∀ x ∈ (Nat.digits 10 n).reverse, x < 10 := fun x hx =>
      Nat.digits_lt_base (by norm_num) (List.mem_reverse.mp hx)
    have henc : encodeNat n = ((Nat.digits 10 n).reverse).map Nat.digitChar := by
      simp [encodeNat, hn, encodeNatAux_eq_digits (n + 1) n (Nat.le_succ n)]
    have hAux := parseNatAux_digits ((Nat.digits 10 n).reverse) 0 rest hd10 hrest
    have hval : ((Nat.digits 10 n).reverse).foldl (fun a d => a * 10 + d) 0 = n := by
      rw [foldl_reverse_ofDigits]
      simp [Nat.ofDigits_digits]
    have hdlt : d < 10 := hd10 d (by rw [hds]; exact List.mem_cons_self d ds)
    rw [henc, hds]
    simp only [List.map_cons, List.cons_append]
    simp [parseNat, digitChar_isDigit d hdlt]
    have hglue : Nat.digitChar d :: (List.map Nat.digitChar ds ++ rest)
        = ((Nat.digits 10 n).reverse).map Nat.digitChar ++ rest := by
      rw [hds]
      simp
    rw [hglue, hAux, hval]

/-- The natural-number round trip specialised to a following comma, the
only context in which the task codec renders numbers. -/
theorem parseNat_round_comma (n : Nat) (rest : List Char) :
    parseNat (encodeNat n ++ (',' :: rest)) = some (n, ',' :: rest) :=
  parseNat_round n (',' :: rest) (by
    show (',').isDigit = false
    decide)

/-- A `JSON.stringify`ed subtask object parses back to itself. -/
theorem parseSubtask_round (s : TaskMgr.Subtask) (rest : List Char) :
    parseSubtask (encodeSubtask s ++ rest) = some (s, rest) := by
  simp [parseSubtask, encodeSubtask, List.append_assoc, expectChars_cons_self,
    expectChars_append, expectChars_nil, parseString_round, parseBool_round]

/-- Each element's encoding being nonempty, the array body is at least as
long as the element count. -/
theorem encodeListBody_length_ge {α : Type} {enc : α → List Char}
    (hne : ∀ x, enc x ≠ []) :
    ∀ (xs : List α), xs.length ≤ (encodeListBody enc xs).length
  | [] => by simp [encodeListBody]
  | [x] => by
    have hx := List.length_pos.mpr (hne x)
    simp [encodeListBody]
    omega
  | x :: y :: xs => by
    have ih := encodeListBody_length_ge hne (y :: xs)
    have hx := List.length_pos.mpr (hne x)
    simp [encodeListBody] at ih ⊢
    omega

/-- The array-body parser recovers the encoded elements and stops right
after the closing bracket, given per-element round-trips and enough
fuel. -/
theorem parseListAux_round {α : Type} {p : List Char → Option (α × List Char)}
    {enc : α → List Char}
    (helem : ∀ x rest, p (enc x ++ rest) = some (x, rest)) :
    ∀ (xs : List α) (fuel : Nat), xs ≠ [] → xs.length ≤ fuel → ∀ (rest : List Char),
      parseListAux p fuel (encodeListBody enc xs ++ (']' :: rest)) = some (xs, rest)
  | [], _, hne, _, _ => absurd rfl hne
  | [x], fuel, _, hfuel, rest => by
    cases fuel with
    | zero => simp at hfuel
    | succ f =>
      simp [encodeListBody, parseListAux, helem x (']' :: rest)]
  | x :: y :: xs, fuel, _, hfuel, rest => by
    cases fuel with
    | zero => simp at hfuel
    | succ f =>
      have ih := parseListAux_round helem (y :: xs) f (by simp)
        (by simp at hfuel ⊢; omega) rest
      simp [encodeListBody, List.append_assoc, parseListAux, helem, ih]

/-- A `JSON.stringify`ed array parses back to itself when every element
encodes to nonempty text that does not begin with a closing bracket and
round-trips individually. -/
theorem parseList_round {α : Type} {p : List Char → Option (α × List Char)}
    {enc : α → List Char}
    (helem : ∀ x rest, p (enc x ++ rest) = some (x, rest))
    (hne : ∀ x, enc x ≠ [])
    (hhead : ∀ x c cs, enc x = c :: cs → ¬ (c = ']'))
    (xs : List α) (rest : List Char) :
    parseList p (encodeList enc xs ++ rest) = some (xs, rest) := by
  cases xs with
  | nil => rfl
  | cons x xs' =>
    obtain ⟨c, cs, hx⟩ := List.exists_cons_of_ne_nil (hne x)
    have hc : ¬ (c = ']') := hhead x c cs hx
    have hbody : ∃ tl, encodeListBody enc (x :: xs') = enc x ++ tl := by
      cases xs' with
      | nil => exact ⟨[], by simp [encodeListBody]⟩
      | cons y ys => exact ⟨',' :: encodeListBody enc (y :: ys), by simp [encodeListBody]⟩
    obtain ⟨tl, htl⟩ := hbody
    have hshape : encodeList enc (x :: xs') ++ rest
        = '[' :: c :: (cs ++ tl ++ (']' :: rest)) := by
      simp [encodeList, htl, hx, List.append_assoc]
    rw [hshape]
    simp only [parseList, if_neg hc]
    have hlist : c :: (cs ++ tl ++ (']' :: rest))
        = encodeListBody enc (x :: xs') ++ (']' :: rest) := by
      rw [htl, hx]
      simp [List.append_assoc]
    rw [hlist]
    refine parseListAux_round helem (x :: xs') _ (by simp) ?_ rest
    have h1 := encodeListBody_length_ge hne (x :: xs')
    simp [List.length_append, List.length_cons] at h1 ⊢
    omega

/-- A `JSON.stringify`ed subtask array parses back to itself. -/
theorem parseSubtaskList_round (xs : List TaskMgr.Subtask) (rest : List Char) :
    parseList parseSubtask (encodeList encodeSubtask xs ++ rest) = some (xs, rest) := by
  refine parseList_round parseSubtask_round ?_ ?_ xs rest
  · intro x
    simp [encodeSubtask]
  · intro x c cs hx
    have hh : (encodeSubtask x).head? = some lbraceChar := by simp [encodeSubtask]
    rw [hx] at hh
    simp at hh
    subst hh
    decide

/-- A `JSON.stringify`ed task object parses back to itself. -/
theorem parseTask_round (t : TaskMgr.Task) (rest : List Char) :
    parseTask (encodeTask t ++ rest) = some (t, rest) := by
  simp [parseTask, parseTaskHead, parseTaskMid, parseTaskTail, encodeTask,
    List.append_assoc, expectChars_cons_self, expectChars_append, expectChars_nil,
    parseString_round, parseBool_round, parseNat_round_comma, parseNullableString_round,
    parseSubtaskList_round]

/-- A `JSON.stringify`ed task array parses back to itself. -/
theorem parseTaskList_round (ts : List TaskMgr.Task) (rest : List Char) :
    parseList parseTask (encodeList encodeTask ts ++ rest) = some (ts, rest) := by
  refine parseList_round parseTask_round ?_ ?_ ts rest
  · intro x
    simp [encodeTask]
  · intro x c cs hx
    have hh : (encodeTask x).head? = some lbraceChar := by simp [encodeTask]
    rw [hx] at hh
    simp at hh
    subst hh
    decide

/-- Serialising a task collection to text and parsing the text back is the
identity. -/
theorem parseTasksText_round (ts : List TaskMgr.Task) :
    parseTasksText (encodeTasksText ts) = some ts := by
  have h := parseTaskList_round ts []
  rw [List.append_nil] at h
  simp [parseTasksText, encodeTasksText, h]

/-- C9: saving a task collection and reloading it with no intervening
mutation of the store yields a deep-equal collection — serialisation to
text followed by deserialisation is the identity on the persisted task
data. -/
theorem saveTasks_loadTasks_roundtrip (ts : List TaskMgr.Task) (st : Store) :
    loadTasks (saveTasks ts st) = ts := by
  have hne : encodeTasksText ts ≠ "" := by
    intro h
    have h2 : ('[' :: (encodeListBody encodeTask ts ++ [']'])) = ([] : List Char) :=
      congrArg String.data h
    exact List.cons_ne_nil _ _ h2
  simp [loadTasks, saveTasks, save, setItem, load, getItem, List.lookup, hne,
    parseTasksText_round]

/-- C8: for every storage key, decoder and default, `load` returns the
default when the key is absent and when the stored text fails to decode
(the parse error is caught locally; `load` is total), and otherwise returns
the decoded stored value. The hypothesis `dec ("") = none` records that
`JSON.parse` rejects the empty string, which the code short-circuits as
falsy. -/
theorem load_default_fallback {α : Type} (dec : String → Option α) (st : Store)
    (key : String) (d : α) (hdec : dec ("") = none) :
    (getItem st key = none → load dec st key d = d) ∧
    (∀ s, getItem st key = some s → dec s = none → load dec st key d = d) ∧
    (∀ s v, getItem st key = some s → dec s = some v → load dec st key d = v) := by
  refine ⟨?_, ?_, ?_⟩
  · intro h
    simp [load, h]
  · intro s hs hd
    by_cases he : s = ""
    · simp [load, hs, he]
    · simp [load, hs, he, hd]
  · intro s v hs hd
    by_cases he : s = ""
    · rw [he, hdec] at hd
      cases hd
    · simp [load, hs, he, hd]

/-- Witness for C8: a present decodable value is returned; an absent key
and an undecodable stored text both fall back to the default. -/
theorem load_default_fallback_witness :
    load wDec [("k", "42")] ("k") 0 = 42 ∧
    load wDec ([] : Store) ("k") 0 = 0 ∧
    load wDec [("k", "xx")] ("k") 0 = 0 := by
  have h1 := load_default_fallback wDec [("k", "42")] ("k") 0 (by decide)
  have h2 := load_default_fallback wDec ([] : Store) ("k") 0 (by decide)
  have h3 := load_default_fallback wDec [("k", "xx")] ("k") 0 (by decide)
  exact ⟨h1.2.2 ("42") 42 (by decide) (by decide), h2.1 (by decide),
    h3.2.1 ("xx") (by decide) (by decide)⟩

end Storage
